import Mathlib

/-!
Verification of the DALL·E mini inference pipeline notebook.

Shallow embedding of `tools/inference/inference_pipeline.ipynb`:
the generation loop (cell-25), the CLIP scoring regrouping (cell-28)
and the ranked display loop (cell-31), together with proofs about the
orchestration arithmetic and ordering contracts stated in the design
document.
-/

namespace DalleMini

/-- Number of generation rounds run by cell-25:
`trange(max(n_predictions // jax.device_count(), 1))`. -/
def numRounds (n_predictions device_count : Nat) : Nat :=
  max (n_predictions / device_count) 1

/-- Abstraction of the models and PRNG primitives the notebook delegates to
external libraries.  `split` is `jax.random.split` (two-way), `shard` is
`shard_prng_key` specialised to one device index, `generate` is the
per-device `p_generate` call (returning one token sequence per prompt,
each starting with the BOS token), and `decode` is the per-sequence
`p_decode` output: a flat list of pixel values. -/
structure GenModel (K : Type) where
  split : K → K × K
  shard : K → Nat → K
  generate : K → List (List Nat)
  decode : List Nat → List ℚ

variable {K : Type}

/-- The pmapped generator call of cell-25: one batch of sequences per
device, each device receiving its shard of the subkey. -/
def pmapGenerate (M : GenModel K) (subkey : K) (d : Nat) : List (List (List Nat)) :=
  (List.range d).map (fun dev => M.generate (M.shard subkey dev))

/-- `encoded_images.sequences[..., 1:]` of cell-25: drop the leading BOS
token of every generated sequence. -/
def stripBOS (encoded : List (List (List Nat))) : List (List (List Nat)) :=
  encoded.map (fun batch => batch.map (fun seq => seq.drop 1))

/-- The pmapped VQGAN decode call of cell-25. -/
def pmapDecode (M : GenModel K) (encoded : List (List (List Nat))) :
    List (List (List ℚ)) :=
  encoded.map (fun batch => batch.map M.decode)

/-- `clip(0.0, 1.0)` applied to one pixel value. -/
def clip01 (x : ℚ) : ℚ := max 0 (min 1 x)

/-- Truncation toward zero, the C-style float-to-integer conversion that
`np.asarray(·, dtype=np.uint8)` performs before wrapping. -/
def truncInt (x : ℚ) : Int := if 0 ≤ x then ⌊x⌋ else -⌊-x⌋

/-- The uint8 cast: truncate toward zero, then wrap modulo 256. -/
def uint8Cast (x : ℚ) : Nat := (truncInt x % 256).toNat

/-- One round's image production (body of cell-25's loop after the key
split): generate on every device, strip BOS, decode, clip to [0,1],
reshape to a flat list of images, and convert each pixel to uint8 after
scaling by 255. -/
def roundImages (M : GenModel K) (subkey : K) (d : Nat) : List (List Nat) :=
  let encoded := pmapGenerate M subkey d
  let stripped := stripBOS encoded
  let decoded := pmapDecode M stripped
  let clipped := decoded.map (fun batch => batch.map (fun pix => pix.map clip01))
  let flat := clipped.flatten
  flat.map (fun pix => pix.map (fun v => uint8Cast (v * 255)))

/-- The generation loop of cell-25, fuelled by the round count: threads
the PRNG key and appends each round's images to the accumulator. -/
def genLoopAux (M : GenModel K) (d : Nat) :
    Nat → K → List (List Nat) → K × List (List Nat)
  | 0, key, images => (key, images)
  | r + 1, key, images =>
    let s := M.split key
    genLoopAux M d r s.1 (images ++ roundImages M s.2 d)

/-- The full generation stage: start from `images = []` and run
`numRounds n_predictions device_count` rounds. -/
def genLoop (M : GenModel K) (d n : Nat) (key : K) : K × List (List Nat) :=
  genLoopAux M d (numRounds n d) key []

/-- Trace of the loop: the subkey consumed and the images produced by each
round, in round order. -/
def genTrace (M : GenModel K) (d : Nat) : Nat → K → List (K × List (List Nat))
  | 0, _ => []
  | r + 1, key =>
    let s := M.split key
    (s.2, roundImages M s.2 d) :: genTrace M d r s.1

/-- The running seed state after `r` rounds: each round retains the first
half of the two-way split. -/
def keyAt (M : GenModel K) (key : K) : Nat → K
  | 0 => key
  | r + 1 => (M.split (keyAt M key r)).1

/-! ## Basic lemmas about the loop -/

theorem genTrace_length (M : GenModel K) (d r : Nat) (key : K) :
    (genTrace M d r key).length = r := by
  induction r generalizing key with
  | zero => rfl
  | succ r ih => simp [genTrace, ih]

theorem genLoopAux_eq (M : GenModel K) (d : Nat) :
    ∀ (r : Nat) (key : K) (acc : List (List Nat)),
      genLoopAux M d r key acc =
        (keyAt M key r, acc ++ ((genTrace M d r key).map (·.2)).flatten)
  | 0, key, acc => by simp [genLoopAux, genTrace, keyAt]
  | r + 1, key, acc => by
    have hstep := genLoopAux_eq M d r (M.split key).1
      (acc ++ roundImages M (M.split key).2 d)
    have hkey : ∀ j : Nat, keyAt M (M.split key).1 j = keyAt M key (j + 1) := by
      intro j
      induction j with
      | zero => rfl
      | succ j ihj => simp [keyAt, ihj]
    simp only [genLoopAux, genTrace, hstep, List.map_cons, List.flatten_cons,
      hkey r, List.append_assoc]

theorem genLoop_images (M : GenModel K) (d n : Nat) (key : K) :
    (genLoop M d n key).2 =
      ((genTrace M d (numRounds n d) key).map (·.2)).flatten := by
  simp [genLoop, genLoopAux_eq]

theorem genTrace_getElem (M : GenModel K) (d : Nat) :
    ∀ (r R : Nat) (key : K), r < R →
      (genTrace M d R key)[r]? =
        some ((M.split (keyAt M key r)).2,
              roundImages M (M.split (keyAt M key r)).2 d)
  | r, 0, _, h => absurd h (Nat.not_lt_zero r)
  | 0, R + 1, key, _ => by simp [genTrace, keyAt]
  | r + 1, R + 1, key, h => by
    have ih := genTrace_getElem M d r R (M.split key).1 (Nat.lt_of_succ_lt_succ h)
    have hkey : ∀ j : Nat, keyAt M (M.split key).1 j = keyAt M key (j + 1) := by
      intro j
      induction j with
      | zero => rfl
      | succ j ihj => simp [keyAt, ihj]
    simpa [genTrace, hkey r] using ih

theorem roundImages_length (M : GenModel K) (subkey : K) (d p : Nat)
    (hgen : ∀ k, (M.generate k).length = p) :
    (roundImages M subkey d).length = d * p := by
  simp only [roundImages, pmapDecode, stripBOS, pmapGenerate, List.length_map,
    List.length_flatten, List.map_map]
  have hcomp : ∀ dev ∈ List.range d,
      (List.length ∘ (fun batch => batch.map (fun pix => pix.map clip01)) ∘
        (fun batch => batch.map M.decode) ∘
        (fun batch => batch.map (fun seq : List Nat => seq.drop 1)) ∘
        (fun dev => M.generate (M.shard subkey dev))) dev = p := by
    intro dev _
    simp [Function.comp, hgen]
  rw [List.map_congr_left hcomp]
  simp [List.sum_replicate, List.map_const]

theorem genTrace_mem_length (M : GenModel K) (d p : Nat)
    (hgen : ∀ k, (M.generate k).length = p) :
    ∀ (r : Nat) (key : K), ∀ e ∈ genTrace M d r key, e.2.length = d * p
  | 0, _, _, he => absurd he (List.not_mem_nil _)
  | r + 1, key, e, he => by
    rcases List.mem_cons.mp he with rfl | htail
    · exact roundImages_length M _ d p hgen
    · exact genTrace_mem_length M d p hgen r (M.split key).1 e htail

theorem genLoop_length (M : GenModel K) (d n p : Nat) (key : K)
    (hgen : ∀ k, (M.generate k).length = p) :
    (genLoop M d n key).2.length = numRounds n d * (d * p) := by
  rw [genLoop_images, List.length_flatten, List.map_map]
  have hconst : ∀ e ∈ genTrace M d (numRounds n d) key,
      (List.length ∘ (·.2)) e = d * p := fun e he =>
    genTrace_mem_length M d p hgen (numRounds n d) key e he
  rw [List.map_congr_left hconst]
  simp [List.map_const, List.sum_replicate, genTrace_length, Nat.mul_comm]

theorem numRounds_dvd_eq (d k : Nat) (hd : 0 < d) (hk : 0 < k) :
    numRounds (d * k) d = k := by
  unfold numRounds
  rw [Nat.mul_div_cancel_left k hd]
  omega

theorem numRounds_lt_eq (n d : Nat) (hlt : n < d) : numRounds n d = 1 := by
  unfold numRounds
  rw [Nat.div_eq_of_lt hlt]
  decide

/-- `max(n // d, 1)` agrees with `ceil(n / d)` exactly on the cases where
`d` divides `n` or `n < d`. -/
theorem numRounds_eq_ceil (n d : Nat) (hn : 1 ≤ n) (hc : d ∣ n ∨ n < d) :
    numRounds n d = (n + d - 1) / d := by
  rcases hc with ⟨k, rfl⟩ | hlt
  · rcases d with _ | d
    · omega
    · have hk : k ≠ 0 := by
        rintro rfl
        simp at hn
      have hd : 0 < d + 1 := Nat.succ_pos d
      have h2 : ((d + 1) * k + (d + 1) - 1) / (d + 1) = k := by
        have he : (d + 1) * k + (d + 1) - 1 = (d + 1) * k + d := by omega
        rw [he, Nat.mul_add_div hd, Nat.div_eq_of_lt (by omega)]
        omega
      rw [numRounds_dvd_eq (d + 1) k hd (Nat.pos_of_ne_zero hk), h2]
  · have h2 : (n + d - 1) / d = 1 := by
      have he : n + d - 1 = d * 1 + (n - 1) := by omega
      rw [he, Nat.mul_add_div (by omega), Nat.div_eq_of_lt (by omega)]
    rw [numRounds_lt_eq n d hlt, h2]

theorem numRounds_mul_ge (n d : Nat) (hn : 1 ≤ n) (hc : d ∣ n ∨ n < d) :
    n ≤ numRounds n d * d := by
  rcases hc with ⟨k, rfl⟩ | hlt
  · rcases d with _ | d
    · omega
    · have hk : k ≠ 0 := by
        rintro rfl
        simp at hn
      rw [numRounds_dvd_eq (d + 1) k (Nat.succ_pos d) (Nat.pos_of_ne_zero hk),
        Nat.mul_comm k (d + 1)]
  · rw [numRounds_lt_eq n d hlt]
    omega

/-! ## Concrete model instances -/

/-- A concrete deterministic two-way key split on `Nat` (the two children
of node `k` in an infinite binary tree). -/
def natSplit (k : Nat) : Nat × Nat := (2 * k + 1, 2 * k + 2)

/-- Concrete single-prompt model used to evaluate the pipeline on
closed inputs. -/
def M0 : GenModel Nat where
  split := natSplit
  shard := fun k dev => 10 * k + dev
  generate := fun k => [[0, k % 5, (k + 1) % 5]]
  decode := fun s => s.map (fun t => (t : ℚ) / 4)

/-- Concrete two-prompt model used to evaluate the pipeline on closed
inputs; shares its `split` with `M0` but differs everywhere else. -/
def M2 : GenModel Nat where
  split := natSplit
  shard := fun k dev => 100 * k + 7 * dev
  generate := fun k => [[0, k % 5], [0, (k + 3) % 5]]
  decode := fun s => s.map (fun t => (t : ℚ) / 2)

/-! ## Claim theorems -/

/-- C1 (corrected): the generation runner performs exactly
`max(n_predictions // device_count, 1)` rounds; this equals
`ceil(n_predictions / device_count)` whenever `device_count` divides
`n_predictions` or `n_predictions < device_count`, but not in general. -/
theorem c1_rounds_count (M : GenModel K) (d n : Nat) (key : K)
    (hn : 1 ≤ n) :
    (genTrace M d (numRounds n d) key).length = numRounds n d ∧
    (d ∣ n ∨ n < d →
      (genTrace M d (numRounds n d) key).length = (n + d - 1) / d) := by
  refine ⟨genTrace_length M d _ key, fun hc => ?_⟩
  rw [genTrace_length, numRounds_eq_ceil n d hn hc]

theorem c1_rounds_count_witness :
    1 ≤ 8 ∧
    ((genTrace M0 4 (numRounds 8 4) 0).length = numRounds 8 4 ∧
     (4 ∣ 8 ∨ 8 < 4 →
       (genTrace M0 4 (numRounds 8 4) 0).length = (8 + 4 - 1) / 4)) :=
  ⟨by decide, c1_rounds_count M0 4 8 0 (by decide)⟩

/-- C1 counterexample: for `n_predictions = 5` and `device_count = 4`
the loop performs `max(5 // 4, 1) = 1` round, not `ceil(5/4) = 2`. -/
theorem c1_counterexample :
    (genTrace M0 4 (numRounds 5 4) 0).length ≠ (5 + 4 - 1) / 4 := by
  decide

/-- C2 (corrected): the accumulated image list always has length
`rounds × device_count × samples_per_device`, with `rounds` the
floor-based count `max(n_predictions // device_count, 1)` the code
computes; when additionally `device_count` divides `n_predictions` or
`n_predictions < device_count`, the per-prompt image count
`rounds × device_count` is at least `n_predictions` and equals
`n_predictions` rounded up to a multiple of `device_count`, and the list
length is at least `n_predictions` — but not in general. -/
theorem c2_accumulated_length (M : GenModel K) (d n p : Nat) (key : K)
    (hgen : ∀ k, (M.generate k).length = p)
    (hp : 1 ≤ p) (hn : 1 ≤ n) :
    (genLoop M d n key).2.length = numRounds n d * (d * p) ∧
    (d ∣ n ∨ n < d →
      n ≤ numRounds n d * d ∧
      numRounds n d * d = ((n + d - 1) / d) * d ∧
      n ≤ (genLoop M d n key).2.length) := by
  have hlen := genLoop_length M d n p key hgen
  refine ⟨hlen, fun hc => ?_⟩
  have hge := numRounds_mul_ge n d hn hc
  refine ⟨hge, by rw [numRounds_eq_ceil n d hn hc], ?_⟩
  calc n ≤ numRounds n d * d := hge
    _ ≤ numRounds n d * (d * p) := by
        rw [← Nat.mul_assoc]
        exact Nat.le_mul_of_pos_right _ hp
    _ = (genLoop M d n key).2.length := hlen.symm

theorem c2_accumulated_length_witness :
    (∀ k, (M2.generate k).length = 2) ∧ 1 ≤ 2 ∧ 1 ≤ 8 ∧
    ((genLoop M2 4 8 0).2.length = numRounds 8 4 * (4 * 2) ∧
     (4 ∣ 8 ∨ 8 < 4 →
       8 ≤ numRounds 8 4 * 4 ∧
       numRounds 8 4 * 4 = ((8 + 4 - 1) / 4) * 4 ∧
       8 ≤ (genLoop M2 4 8 0).2.length)) :=
  ⟨fun _ => rfl, by decide, by decide,
   c2_accumulated_length M2 4 8 2 0 (fun _ => rfl) (by decide) (by decide)⟩

/-- C2 counterexample: for `n_predictions = 5`, `device_count = 4` and a
single prompt, only `4 < 5` images are accumulated, so the claimed
invariant `length ≥ n_predictions` (and the round-up equality) fails. -/
theorem c2_counterexample : ¬ (5 ≤ (genLoop M0 4 5 0).2.length) := by
  decide

/-- C5 (confirmed): with a single device the runner performs exactly
`n_predictions` rounds, each producing one image per prompt (batch
size 1 per prompt). -/
theorem c5_single_device (M : GenModel K) (n p : Nat) (key : K)
    (hgen : ∀ k, (M.generate k).length = p) (hn : 1 ≤ n) :
    (genTrace M 1 (numRounds n 1) key).length = n ∧
    ∀ e ∈ genTrace M 1 (numRounds n 1) key, e.2.length = 1 * p := by
  have h1 : numRounds n 1 = n := by
    unfold numRounds
    rw [Nat.div_one]
    omega
  exact ⟨by rw [genTrace_length, h1],
    genTrace_mem_length M 1 p hgen (numRounds n 1) key⟩

theorem c5_single_device_witness :
    (∀ k, (M2.generate k).length = 2) ∧ 1 ≤ 3 ∧
    ((genTrace M2 1 (numRounds 3 1) 0).length = 3 ∧
     ∀ e ∈ genTrace M2 1 (numRounds 3 1) 0, e.2.length = 1 * 2) :=
  ⟨fun _ => rfl, by decide, c5_single_device M2 3 2 0 (fun _ => rfl) (by decide)⟩

/-- C9 (confirmed): when `n_predictions < device_count` (including 0) the
loop still performs exactly one round, producing
`device_count × prompt_count` images; the round count is never zero. -/
theorem c9_min_one_round (M : GenModel K) (d n p : Nat) (key : K)
    (hgen : ∀ k, (M.generate k).length = p) (hlt : n < d) :
    numRounds n d = 1 ∧
    (genTrace M d (numRounds n d) key).length = 1 ∧
    (genLoop M d n key).2.length = d * p ∧
    ∀ n' d' : Nat, 0 < numRounds n' d' := by
  have h1 : numRounds n d = 1 := numRounds_lt_eq n d hlt
  refine ⟨h1, by rw [genTrace_length, h1], ?_, fun n' d' => ?_⟩
  · rw [genLoop_length M d n p key hgen, h1, Nat.one_mul]
  · exact Nat.lt_of_lt_of_le Nat.zero_lt_one (Nat.le_max_right _ 1)

theorem c9_min_one_round_witness :
    (∀ k, (M0.generate k).length = 1) ∧ 0 < 4 ∧
    (numRounds 0 4 = 1 ∧
     (genTrace M0 4 (numRounds 0 4) 7).length = 1 ∧
     (genLoop M0 4 0 7).2.length = 4 * 1 ∧
     ∀ n' d' : Nat, 0 < numRounds n' d') :=
  ⟨fun _ => rfl, by decide, c9_min_one_round M0 4 0 1 7 (fun _ => rfl) (by decide)⟩

/-- C6 (confirmed): each round splits the running seed state exactly once:
the second half is the round's subkey (sharded to the generator), the
first half becomes the seed state of the next round, and the final seed
state is the `R`-fold iterate of this single-step update. -/
theorem c6_key_threading (M : GenModel K) (d R r : Nat) (key : K)
    (hr : r < R) :
    (genTrace M d R key)[r]? =
      some ((M.split (keyAt M key r)).2,
            roundImages M (M.split (keyAt M key r)).2 d) ∧
    keyAt M key (r + 1) = (M.split (keyAt M key r)).1 ∧
    (genLoopAux M d R key []).1 = keyAt M key R := by
  refine ⟨genTrace_getElem M d r R key hr, rfl, ?_⟩
  rw [genLoopAux_eq]

theorem c6_key_threading_witness :
    1 < 3 ∧
    ((genTrace M0 2 3 0)[1]? =
       some ((M0.split (keyAt M0 0 1)).2,
             roundImages M0 (M0.split (keyAt M0 0 1)).2 2) ∧
     keyAt M0 0 (1 + 1) = (M0.split (keyAt M0 0 1)).1 ∧
     (genLoopAux M0 2 3 0 []).1 = keyAt M0 0 3) :=
  ⟨by decide, c6_key_threading M0 2 3 1 0 (by decide)⟩

/-- C7 (confirmed): before decoding, each generated sequence loses exactly
its leading BOS token: the sequence handed to the decoder has length one
less than the generator output and its element at position `t` is the
generator output's element at position `t + 1`. -/
theorem c7_strip_bos (M : GenModel K) (subkey : K) (d dev j t : Nat)
    (batch : List (List Nat)) (seq : List Nat)
    (hdev : (pmapGenerate M subkey d)[dev]? = some batch)
    (hj : batch[j]? = some seq) :
    (stripBOS (pmapGenerate M subkey d))[dev]? =
      some (batch.map (fun s => s.drop 1)) ∧
    (batch.map (fun s => s.drop 1))[j]? = some (seq.drop 1) ∧
    (seq.drop 1).length = seq.length - 1 ∧
    (seq.drop 1)[t]? = seq[t + 1]? := by
  refine ⟨?_, ?_, List.length_drop 1 seq, ?_⟩
  · simp [stripBOS, List.getElem?_map, hdev]
  · simp [List.getElem?_map, hj]
  · rw [List.getElem?_drop, Nat.add_comm]

theorem c7_strip_bos_witness :
    ((pmapGenerate M0 3 2)[1]? = some [[0, 1, 2]]) ∧
    (([[0, 1, 2]] : List (List Nat))[0]? = some [0, 1, 2]) ∧
    ((stripBOS (pmapGenerate M0 3 2))[1]? =
       some (([[0, 1, 2]] : List (List Nat)).map (fun s => s.drop 1)) ∧
     (([[0, 1, 2]] : List (List Nat)).map (fun s => s.drop 1))[0]? =
       some (([0, 1, 2] : List Nat).drop 1) ∧
     (([0, 1, 2] : List Nat).drop 1).length = ([0, 1, 2] : List Nat).length - 1 ∧
     (([0, 1, 2] : List Nat).drop 1)[0]? = ([0, 1, 2] : List Nat)[0 + 1]?) :=
  ⟨by decide, by decide,
   c7_strip_bos M0 3 2 1 0 0 [[0, 1, 2]] [0, 1, 2] (by decide) (by decide)⟩

/-- C10 (confirmed): after clipping to `[0,1]`, the scaled pixel value
lies in `[0, 255]`, so the truncating uint8 conversion never wraps
modulo 256: the wrap is the identity and the result is the plain floor,
at most 255. -/
theorem c10_no_uint8_wrap : ∀ v : ℚ,
    0 ≤ clip01 v * 255 ∧ clip01 v * 255 ≤ 255 ∧
    uint8Cast (clip01 v * 255) = (⌊clip01 v * 255⌋).toNat ∧
    truncInt (clip01 v * 255) % 256 = truncInt (clip01 v * 255) ∧
    uint8Cast (clip01 v * 255) ≤ 255 := by
  intro v
  have h0 : (0 : ℚ) ≤ clip01 v := le_max_left 0 (min 1 v)
  have h1 : clip01 v ≤ 1 := max_le (by norm_num) (min_le_left 1 v)
  have hy0 : (0 : ℚ) ≤ clip01 v * 255 := by positivity
  have hy1 : clip01 v * 255 ≤ 255 := by nlinarith
  have htrunc : truncInt (clip01 v * 255) = ⌊clip01 v * 255⌋ := if_pos hy0
  have hfl0 : (0 : ℤ) ≤ ⌊clip01 v * 255⌋ := Int.floor_nonneg.mpr hy0
  have hfl1 : ⌊clip01 v * 255⌋ ≤ 255 := by
    have := Int.floor_le_floor hy1
    simpa using this
  have hmod : ⌊clip01 v * 255⌋ % 256 = ⌊clip01 v * 255⌋ :=
    Int.emod_eq_of_lt hfl0 (by omega)
  refine ⟨hy0, hy1, ?_, by rw [htrunc, hmod], ?_⟩
  · rw [uint8Cast, htrunc, hmod]
  · rw [uint8Cast, htrunc, hmod]
    omega

/-- C4 (confirmed): the derived subkey sequence and the retained seed
state depend only on the split function and the initial seed: two runs
with the same split and seed — even with different device counts,
generators or decoders — derive identical subkey sequences, so no
external state influences key derivation. -/
theorem c4_key_determinism (M1 M2 : GenModel K)
    (hsplit : M1.split = M2.split) (d1 d2 R : Nat) (key : K) :
    (genTrace M1 d1 R key).map (·.1) = (genTrace M2 d2 R key).map (·.1) ∧
    (genLoopAux M1 d1 R key []).1 = (genLoopAux M2 d2 R key []).1 := by
  have hkeyAt : ∀ (r : Nat) (k : K), keyAt M1 k r = keyAt M2 k r := by
    intro r
    induction r with
    | zero => intro k; rfl
    | succ r ih =>
      intro k
      simp [keyAt, ih, hsplit]
  constructor
  · induction R generalizing key with
    | zero => rfl
    | succ R ih =>
      simp only [genTrace, List.map_cons, hsplit, ih]
  · rw [genLoopAux_eq, genLoopAux_eq]
    exact hkeyAt R key

theorem c4_key_determinism_witness :
    M0.split = M2.split ∧
    ((genTrace M0 2 3 5).map (·.1) = (genTrace M2 3 3 5).map (·.1) ∧
     (genLoopAux M0 2 3 5 []).1 = (genLoopAux M2 3 3 5 []).1) :=
  ⟨rfl, c4_key_determinism M0 M2 rfl 2 3 3 5⟩

/-- C8 (confirmed): the accumulated list is the concatenation of the
per-round image lists in round order; within a round, the images are the
flattened decoded batches with every pixel clipped to `[0,1]`, scaled by
255 and cast to uint8; each round contributes `device_count × prompts`
images of the decoder's fixed size. -/
theorem c8_decode_append (M : GenModel K) (d n p : Nat) (key : K)
    (hgen : ∀ k, (M.generate k).length = p)
    (hdec : ∀ s, (M.decode s).length = 256 * 256 * 3) :
    (genLoop M d n key).2 =
      ((genTrace M d (numRounds n d) key).map (·.2)).flatten ∧
    (∀ subkey, roundImages M subkey d =
      ((pmapDecode M (stripBOS (pmapGenerate M subkey d))).flatten).map
        (fun pix => pix.map (fun v => uint8Cast (clip01 v * 255)))) ∧
    (∀ subkey, (roundImages M subkey d).length = d * p) ∧
    (∀ subkey, ∀ img ∈ roundImages M subkey d,
      img.length = 256 * 256 * 3) := by
  refine ⟨genLoop_images M d n key, fun subkey => ?_,
    fun subkey => roundImages_length M subkey d p hgen, fun subkey img hmem => ?_⟩
  · rw [roundImages, ← List.map_flatten, List.map_map]
    refine List.map_congr_left fun pix _ => ?_
    simp [Function.comp, List.map_map]
  · rw [roundImages] at hmem
    rcases List.mem_map.mp hmem with ⟨pix, hpix, rfl⟩
    rcases List.mem_flatten.mp hpix with ⟨cb, hcb, hpixin⟩
    rcases List.mem_map.mp hcb with ⟨batchD, hbD, rfl⟩
    rcases List.mem_map.mp hpixin with ⟨q, hq, rfl⟩
    rcases List.mem_map.mp hbD with ⟨sb, _, rfl⟩
    rcases List.mem_map.mp hq with ⟨s, _, rfl⟩
    simp [hdec]

/-- Concrete model used to instantiate the decoder-size contract: its
decoder always emits a full `256 × 256 × 3` pixel array. -/
def M8 : GenModel Nat where
  split := natSplit
  shard := fun k dev => k + dev
  generate := fun k => [[0, k]]
  decode := fun _ => List.replicate (256 * 256 * 3) ((1 : ℚ) / 2)

theorem c8_decode_append_witness :
    (∀ k, (M8.generate k).length = 1) ∧
    (∀ s, (M8.decode s).length = 256 * 256 * 3) ∧
    ((genLoop M8 2 3 0).2 =
       ((genTrace M8 2 (numRounds 3 2) 0).map (·.2)).flatten ∧
     (∀ subkey, roundImages M8 subkey 2 =
       ((pmapDecode M8 (stripBOS (pmapGenerate M8 subkey 2))).flatten).map
         (fun pix => pix.map (fun v => uint8Cast (clip01 v * 255)))) ∧
     (∀ subkey, (roundImages M8 subkey 2).length = 2 * 1) ∧
     (∀ subkey, ∀ img ∈ roundImages M8 subkey 2,
       img.length = 256 * 256 * 3)) :=
  ⟨fun _ => rfl, fun _ => List.length_replicate _ _,
   c8_decode_append M8 2 3 1 0 (fun _ => rfl)
     (fun _ => List.length_replicate _ _)⟩

/-! ## Scoring and ranking stage (cell-28 and cell-31) -/

/-- The CLIP logits tensor of cell-28, `p_clip(shard(clip_inputs), ...)`:
device × sharded-image-index × prompt.  The `N = d * m` accumulated
images are sharded `m` per device, and the prompt list (tiled
`device_count` times in `clip_inputs`) re-appears whole on every device,
so the entry at `(dev, j, t)` scores flat image `dev * m + j` against
prompt `t`; `S` is the underlying CLIP similarity. -/
def clipLogits {σ : Type} (S : Nat → Nat → σ) (d m p : Nat) :
    List (List (List σ)) :=
  (List.range d).map (fun dev =>
    (List.range m).map (fun j =>
      (List.range p).map (fun t => S (dev * m + j) t)))

/-- The Python slice `l[i::p]` (for a start index `i < p`): the elements
at positions congruent to `i` modulo `p`, in position order. -/
def sliceStride {α : Type} (l : List α) (i p : Nat) : List α :=
  ((List.range l.length).filter (fun j => decide (j % p = i))).filterMap
    (fun j => l[j]?)

/-- The comprehension `[logits[:, i::p, i] for i in range(p)]` of
cell-28, before `np.asarray(...).squeeze()`: a prompt × device × stride
tensor; entry `(i, dev, k)` is the prompt-`i` component of the
`(i + k*p)`-th sharded image row of device `dev`. -/
def regroupedLogits {σ : Type} [Inhabited σ]
    (logits : List (List (List σ))) (p : Nat) : List (List (List σ)) :=
  (List.range p).map (fun i =>
    logits.map (fun devRows =>
      (sliceStride devRows i p).map (fun row => row.getD i default)))

/-- A numpy array of rank at most 3, as produced by squeezing the
rank-3 regrouped logits. -/
inductive NDArr (σ : Type) where
  | scalar (x : σ)
  | one (xs : List σ)
  | two (xss : List (List σ))
  | three (xsss : List (List (List σ)))

/-- `np.asarray(t).squeeze()` on a rectangular rank-3 nested list:
every axis of size 1 is dropped (and only those), so the result's rank
is the number of non-singleton axes of the `(p, d, q)` shape. -/
def squeeze3 {σ : Type} [Inhabited σ] (t : List (List (List σ))) : NDArr σ :=
  if t.length = 1 then
    if (t.getD 0 []).length = 1 then
      if ((t.getD 0 []).getD 0 []).length = 1 then
        NDArr.scalar (((t.getD 0 []).getD 0 []).getD 0 default)
      else NDArr.one ((t.getD 0 []).getD 0 [])
    else
      if ((t.getD 0 []).getD 0 []).length = 1 then
        NDArr.one ((t.getD 0 []).map (fun row => row.getD 0 default))
      else NDArr.two (t.getD 0 [])
  else
    if (t.getD 0 []).length = 1 then
      if ((t.getD 0 []).getD 0 []).length = 1 then
        NDArr.one (t.map (fun dv => (dv.getD 0 []).getD 0 default))
      else NDArr.two (t.map (fun dv => dv.getD 0 []))
    else
      if ((t.getD 0 []).getD 0 []).length = 1 then
        NDArr.two (t.map (fun dv => dv.map (fun row => row.getD 0 default)))
      else NDArr.three t

/-- `argsort()[::-1]` of cell-31: indices of the score list sorted
ascending by score (stably), then reversed. -/
def argsortDesc {σ : Type} [LinearOrder σ] [Inhabited σ]
    (scores : List σ) : List Nat :=
  (List.insertionSort
    (fun a b => scores.getD a default ≤ scores.getD b default)
    (List.range scores.length)).reverse

/-- The body of cell-31's display loop applied to one 1-D score row
`logits[i]`: for each index of the descending argsort, show the image at
flat position `idx * p + i` together with its score `logits[i][idx]`. -/
def rankedRow {α σ : Type} [LinearOrder σ] [Inhabited σ]
    (images : List α) (scores : List σ) (p i : Nat) :
    List (Option α × σ) :=
  (argsortDesc scores).map
    (fun idx => (images[idx * p + i]?, scores.getD idx default))

/-- The display loop of cell-31 for prompt `i`, reading row `i` of the
squeezed logits.  It yields a ranked list only when `logits[i]` is a 1-D
row: on the rank-3 array `idx` is itself an array and `images[idx*p+i]`
raises a TypeError, and on a rank-≤1 array `logits[i]` is a scalar (or
out of rank) and the loop's indexing fails, so those cases produce no
ranked display (`none`). -/
def rankedDisplay {α σ : Type} [LinearOrder σ] [Inhabited σ]
    (images : List α) (logitsArr : NDArr σ) (p i : Nat) :
    Option (List (Option α × σ)) :=
  match logitsArr with
  | NDArr.two rows =>
    match rows[i]? with
    | some scores => some (rankedRow images scores p i)
    | none => none
  | _ => none

/-- The whole optional scoring stage (cell-28 then cell-31) for prompt
`i`, on `d * m` accumulated images sharded `m` per device, with `S` the
underlying CLIP similarity between a flat image position and a prompt
index. -/
def scoringStage {α σ : Type} [LinearOrder σ] [Inhabited σ]
    (S : Nat → Nat → σ) (images : List α) (d m p i : Nat) :
    Option (List (Option α × σ)) :=
  rankedDisplay images (squeeze3 (regroupedLogits (clipLogits S d m p) p)) p i

/-! ## Lemmas for the regrouping arithmetic -/

theorem filterMap_congr_mem {α β : Type} {l : List α} {f g : α → Option β}
    (h : ∀ a ∈ l, f a = g a) : l.filterMap f = l.filterMap g := by
  induction l with
  | nil => rfl
  | cons a l ih =>
    rw [List.filterMap_cons, List.filterMap_cons,
      h a (List.mem_cons_self a l), ih (fun b hb => h b (List.mem_cons_of_mem a hb))]

theorem range_filter_eq_single (p i : Nat) (hi : i < p) :
    (List.range p).filter (fun j => decide (j = i)) = [i] := by
  induction p with
  | zero => omega
  | succ p ih =>
    rw [List.range_succ, List.filter_append]
    rcases Nat.lt_or_ge i p with h | h
    · rw [ih h]
      have hne : (List.filter (fun j => decide (j = i)) [p]) = [] := by
        simp
        omega
      rw [hne, List.append_nil]
    · have hip : i = p := by omega
      subst hip
      have h0 : (List.range i).filter (fun j => decide (j = i)) = [] :=
        List.filter_eq_nil_iff.mpr (fun a ha => by
          simp
          exact Nat.ne_of_lt (List.mem_range.mp ha))
      rw [h0]
      simp

theorem filter_mod_range (p i : Nat) (hi : i < p) :
    ∀ q, (List.range (q * p)).filter (fun j => decide (j % p = i)) =
      (List.range q).map (fun k => k * p + i)
  | 0 => by simp
  | q + 1 => by
    have ih := filter_mod_range p i hi q
    rw [Nat.succ_mul, List.range_add, List.filter_append, ih, List.filter_map]
    have hcong : ∀ x ∈ List.range p,
        ((fun j => decide (j % p = i)) ∘ (fun x => q * p + x)) x =
          decide (x = i) := by
      intro x hx
      have hx' := List.mem_range.mp hx
      simp only [Function.comp]
      rw [Nat.mul_comm q p, Nat.mul_add_mod, Nat.mod_eq_of_lt hx']
    rw [List.filter_congr hcong, range_filter_eq_single p i hi,
      List.range_succ, List.map_append]
    rfl

theorem getD_range_map {β : Type} (f : Nat → β) (n j : Nat) (dflt : β)
    (hj : j < n) : ((List.range n).map f).getD j dflt = f j := by
  rw [List.getD_eq_getElem?_getD, List.getElem?_map, List.getElem?_range hj,
    Option.map_some', Option.getD_some]

/-- Evaluating one entry of the cell-28 comprehension: slicing a device's
`m` logits rows with `[i::p]` and projecting component `i` yields the
scores of the images at per-device positions `i, i + p, i + 2p, …`
against prompt `i`. -/
theorem deviceRow_eq {σ : Type} [Inhabited σ] (S : Nat → Nat → σ)
    (m p i dev : Nat) (hi : i < p) (hm : p ∣ m) :
    (sliceStride ((List.range m).map
        (fun j => (List.range p).map (fun t => S (dev * m + j) t))) i p).map
      (fun row => row.getD i default) =
    (List.range (m / p)).map (fun k => S (dev * m + (k * p + i)) i) := by
  obtain ⟨q, rfl⟩ := hm
  have hq : p * q / p = q := Nat.mul_div_cancel_left q (by omega)
  rw [hq]
  have hslice : sliceStride ((List.range (p * q)).map
      (fun j => (List.range p).map (fun t => S (dev * (p * q) + j) t))) i p =
      (List.range q).map
        (fun k => (List.range p).map
          (fun t => S (dev * (p * q) + (k * p + i)) t)) := by
    unfold sliceStride
    rw [List.length_map, List.length_range, Nat.mul_comm p q,
      filter_mod_range p i hi q, List.filterMap_map]
    have hsome : ∀ k ∈ List.range q,
        ((fun j => ((List.range (q * p)).map
            (fun j => (List.range p).map (fun t => S (dev * (q * p) + j) t)))[j]?) ∘
          (fun k => k * p + i)) k =
        some ((List.range p).map (fun t => S (dev * (q * p) + (k * p + i)) t)) := by
      intro k hk
      have hk' := List.mem_range.mp hk
      have hlt : k * p + i < q * p := by
        calc k * p + i < k * p + p := by omega
          _ = (k + 1) * p := by ring
          _ ≤ q * p := Nat.mul_le_mul_right p hk'
      simp only [Function.comp, List.getElem?_map, List.getElem?_range hlt,
        Option.map_some']
    rw [filterMap_congr_mem hsome]
    have : (fun k => some ((List.range p).map
        (fun t => S (dev * (q * p) + (k * p + i)) t))) =
        some ∘ (fun k => (List.range p).map
          (fun t => S (dev * (q * p) + (k * p + i)) t)) := rfl
    rw [this, List.filterMap_eq_map]
  rw [hslice, List.map_map]
  refine List.map_congr_left fun k _ => ?_
  simp only [Function.comp]
  exact getD_range_map _ p i default hi

/-- The full cell-28 comprehension on the logits tensor: entry `(i, dev)`
is the stride-`p` score row of prompt `i` on device `dev`. -/
theorem regroupedLogits_eq {σ : Type} [Inhabited σ] (S : Nat → Nat → σ)
    (d m p : Nat) (hm : p ∣ m) :
    regroupedLogits (clipLogits S d m p) p =
      (List.range p).map (fun i => (List.range d).map (fun dev =>
        (List.range (m / p)).map (fun k => S (dev * m + (k * p + i)) i))) := by
  unfold regroupedLogits clipLogits
  refine List.map_congr_left fun i hi => ?_
  rw [List.map_map]
  refine List.map_congr_left fun dev _ => ?_
  simp only [Function.comp]
  exact deviceRow_eq S m p i dev (List.mem_range.mp hi) hm

theorem argsortDesc_perm {σ : Type} [LinearOrder σ] [Inhabited σ]
    (scores : List σ) :
    (argsortDesc scores).Perm (List.range scores.length) :=
  (List.reverse_perm _).trans (List.perm_insertionSort _ _)

theorem argsortDesc_sorted {σ : Type} [LinearOrder σ] [Inhabited σ]
    (scores : List σ) :
    List.Pairwise
      (fun a b => scores.getD b default ≤ scores.getD a default)
      (argsortDesc scores) := by
  unfold argsortDesc
  rw [List.pairwise_reverse]
  haveI : IsTotal Nat
      (fun a b => scores.getD a default ≤ scores.getD b default) :=
    ⟨fun a b => le_total _ _⟩
  haveI : IsTrans Nat
      (fun a b => scores.getD a default ≤ scores.getD b default) :=
    ⟨fun a b c hab hbc => le_trans hab hbc⟩
  exact List.sorted_insertionSort _ _

theorem rankedDisplay_two {α σ : Type} [LinearOrder σ] [Inhabited σ]
    (images : List α) (rows : List (List σ)) (p i : Nat) (scores : List σ)
    (hrow : rows[i]? = some scores) :
    rankedDisplay images (NDArr.two rows) p i =
      some (rankedRow images scores p i) := by
  have hred : rankedDisplay images (NDArr.two rows) p i =
      match rows[i]? with
      | some scores => some (rankedRow images scores p i)
      | none => none := rfl
  rw [hred, hrow]

/-- Squeezing a `(p, 1, q)` tensor with `p ≠ 1` and `q ≠ 1`: exactly the
middle singleton axis is dropped. -/
theorem squeeze3_singleton_middle {σ : Type} [Inhabited σ]
    (row : Nat → List σ) (p : Nat) (hp1 : p ≠ 1) (hp0 : 0 < p)
    (hq : (row 0).length ≠ 1) :
    squeeze3 ((List.range p).map (fun i => [row i])) =
      NDArr.two ((List.range p).map row) := by
  have h1 : ((List.range p).map (fun i => [row i])).length = p := by
    rw [List.length_map, List.length_range]
  have h2 : ((List.range p).map (fun i => [row i])).getD 0 [] = [row 0] :=
    getD_range_map (fun i => [row i]) p 0 [] hp0
  unfold squeeze3
  rw [h1, h2, if_neg hp1, if_pos (by rw [List.length_singleton]),
    if_neg (by rw [show ([row 0] : List (List σ)).getD 0 [] = row 0 from rfl]; exact hq),
    List.map_map]
  rfl

/-- Squeezing a `(p, d, 1)` tensor with `p ≠ 1` and `d ≠ 1`: exactly the
last singleton axis is dropped. -/
theorem squeeze3_singleton_inner {σ : Type} [Inhabited σ]
    (e : Nat → Nat → σ) (p d : Nat) (hp1 : p ≠ 1) (hp0 : 0 < p)
    (hd1 : d ≠ 1) (hd0 : 0 < d) :
    squeeze3 ((List.range p).map
        (fun i => (List.range d).map (fun dev => [e i dev]))) =
      NDArr.two ((List.range p).map
        (fun i => (List.range d).map (fun dev => e i dev))) := by
  have h1 : ((List.range p).map
      (fun i => (List.range d).map (fun dev => [e i dev]))).length = p := by
    rw [List.length_map, List.length_range]
  have h2 : ((List.range p).map
      (fun i => (List.range d).map (fun dev => [e i dev]))).getD 0 [] =
      (List.range d).map (fun dev => [e 0 dev]) :=
    getD_range_map _ p 0 [] hp0
  have h3 : ((List.range d).map (fun dev => [e 0 dev])).getD 0 [] = [e 0 0] :=
    getD_range_map _ d 0 [] hd0
  unfold squeeze3
  rw [h1, h2, if_neg hp1,
    if_neg (by rw [List.length_map, List.length_range]; exact hd1),
    h3, if_pos (by rw [List.length_singleton])]
  refine congrArg NDArr.two ?_
  rw [List.map_map]
  refine List.map_congr_left fun i _ => ?_
  simp only [Function.comp, List.map_map]
  rfl

/-- C3 (corrected): when the squeezed logits matrix is two-dimensional
with the prompt axis leading — at least two prompts and exactly one of
the CLIP shard count and the per-device stride count equal to 1 — the
scoring stage assigns to prompt `i` exactly the images at flat positions
`i, i + p, i + 2p, …` and displays them sorted by descending score, each
with its own score.  Outside those shapes `squeeze()` leaves a layout
cell-31 cannot consume as claimed (see the counterexample). -/
theorem c3_regroup_display {α σ : Type} [LinearOrder σ] [Inhabited σ]
    (S : Nat → Nat → σ) (images : List α) (d m p i : Nat)
    (hp : 2 ≤ p) (hi : i < p) (hm : p ∣ m)
    (hcase : (d = 1 ∧ m / p ≠ 1) ∨ (m / p = 1 ∧ 2 ≤ d))
    (_himg : images.length = d * m) :
    scoringStage S images d m p i =
      some (rankedRow images
        (((List.range (d * m / p)).map (fun k => k * p + i)).map
          (fun pos => S pos i)) p i) ∧
    (rankedRow images
        (((List.range (d * m / p)).map (fun k => k * p + i)).map
          (fun pos => S pos i)) p i).Perm
      (((List.range (d * m / p)).map (fun k => k * p + i)).map
        (fun pos => (images[pos]?, S pos i))) ∧
    List.Pairwise (fun x y : Option α × σ => y.2 ≤ x.2)
      (rankedRow images
        (((List.range (d * m / p)).map (fun k => k * p + i)).map
          (fun pos => S pos i)) p i) := by
  have hp1 : p ≠ 1 := by omega
  have hp0 : 0 < p := by omega
  have hdm : d * m / p = d * (m / p) := Nat.mul_div_assoc d hm
  have hsc : (((List.range (d * m / p)).map (fun k => k * p + i)).map
      (fun pos => S pos i)) =
      (List.range (d * (m / p))).map (fun k => S (k * p + i) i) := by
    rw [List.map_map, hdm]
    rfl
  have hstage : scoringStage S images d m p i =
      some (rankedRow images
        ((List.range (d * (m / p))).map (fun k => S (k * p + i) i)) p i) := by
    unfold scoringStage
    rw [regroupedLogits_eq S d m p hm]
    rcases hcase with ⟨hd, hq⟩ | ⟨hq, hd⟩
    · subst hd
      have hshape : (List.range p).map (fun i => (List.range 1).map
          (fun dev => (List.range (m / p)).map
            (fun k => S (dev * m + (k * p + i)) i))) =
          (List.range p).map (fun j =>
            [(List.range (m / p)).map (fun k => S (k * p + j) j)]) := by
        refine List.map_congr_left fun j _ => ?_
        simp [show List.range 1 = [0] from rfl]
      rw [hshape, squeeze3_singleton_middle
        (fun j => (List.range (m / p)).map (fun k => S (k * p + j) j)) p hp1 hp0
        (by rw [List.length_map, List.length_range]; exact hq)]
      have hget : ((List.range p).map (fun j =>
          (List.range (m / p)).map (fun k => S (k * p + j) j)))[i]? =
          some ((List.range (m / p)).map (fun k => S (k * p + i) i)) := by
        rw [List.getElem?_map, List.getElem?_range hi, Option.map_some']
      rw [rankedDisplay_two images _ p i _ hget, Nat.one_mul]
    · have hd1 : d ≠ 1 := by omega
      have hd0 : 0 < d := by omega
      have hmp : m = p := by
        have h := Nat.div_mul_cancel hm
        rw [hq] at h
        omega
      subst hmp
      have hshape : (List.range m).map (fun i => (List.range d).map
          (fun dev => (List.range (m / m)).map
            (fun k => S (dev * m + (k * m + i)) i))) =
          (List.range m).map (fun j => (List.range d).map
            (fun dev => [S (dev * m + j) j])) := by
        refine List.map_congr_left fun j _ => ?_
        refine List.map_congr_left fun dev _ => ?_
        rw [hq]
        simp [show List.range 1 = [0] from rfl]
      rw [hshape, squeeze3_singleton_inner
        (fun j dev => S (dev * m + j) j) m d hp1 hp0 hd1 hd0]
      have hget : ((List.range m).map (fun j => (List.range d).map
          (fun dev => S (dev * m + j) j)))[i]? =
          some ((List.range d).map (fun dev => S (dev * m + i) i)) := by
        rw [List.getElem?_map, List.getElem?_range hi, Option.map_some']
      rw [rankedDisplay_two images _ m i _ hget, hq, Nat.mul_one]
  have hlen : ((List.range (d * (m / p))).map
      (fun k => S (k * p + i) i)).length = d * (m / p) := by
    rw [List.length_map, List.length_range]
  refine ⟨by rw [hsc, hstage], ?_, ?_⟩
  · rw [hsc]
    unfold rankedRow
    have hperm := (argsortDesc_perm
      ((List.range (d * (m / p))).map (fun k => S (k * p + i) i))).map
      (fun idx => ((images[idx * p + i]?),
        ((List.range (d * (m / p))).map
          (fun k => S (k * p + i) i)).getD idx default))
    rw [hlen] at hperm
    refine hperm.trans (List.Perm.of_eq ?_)
    rw [List.map_map, hdm]
    refine List.map_congr_left fun k hk => ?_
    simp only [Function.comp]
    rw [getD_range_map _ _ k default (List.mem_range.mp hk)]
  · rw [hsc]
    unfold rankedRow
    rw [List.pairwise_map]
    exact (argsortDesc_sorted ((List.range (d * (m / p))).map
      (fun k => S (k * p + i) i))).imp (fun h => h)

/-- Concrete score function used to evaluate the scoring stage on closed
inputs. -/
def S3 : Nat → Nat → Nat := fun pos t => 7 * pos + t

/-- C3 counterexample: with a single prompt (`p = 1`), two CLIP shards of
two stride entries each (`d = 2`, `m = 2`, four accumulated images),
`squeeze()` drops the prompt axis, so cell-31's `logits[0]` is the first
shard's row: the stage runs but displays only that shard's two images,
not the four images of prompt 0's stride slice. -/
theorem c3_counterexample :
    scoringStage S3 ([100, 101, 102, 103] : List Nat) 2 2 1 0 =
      some [(some 101, 7), (some 100, 0)] ∧
    (((List.range (2 * 2 / 1)).map (fun k => k * 1 + 0)).map
      (fun pos => (([100, 101, 102, 103] : List Nat)[pos]?, S3 pos 0))).length
      = 4 := by
  constructor
  · decide
  · decide

theorem c3_regroup_display_witness :
    2 ≤ 2 ∧ 1 < 2 ∧ 2 ∣ 4 ∧ ((1 = 1 ∧ 4 / 2 ≠ 1) ∨ (4 / 2 = 1 ∧ 2 ≤ 1)) ∧
    ([100, 101, 102, 103] : List Nat).length = 1 * 4 ∧
    (scoringStage S3 ([100, 101, 102, 103] : List Nat) 1 4 2 1 =
       some (rankedRow ([100, 101, 102, 103] : List Nat)
         (((List.range (1 * 4 / 2)).map (fun k => k * 2 + 1)).map
           (fun pos => S3 pos 1)) 2 1) ∧
     (rankedRow ([100, 101, 102, 103] : List Nat)
         (((List.range (1 * 4 / 2)).map (fun k => k * 2 + 1)).map
           (fun pos => S3 pos 1)) 2 1).Perm
       (((List.range (1 * 4 / 2)).map (fun k => k * 2 + 1)).map
         (fun pos => (([100, 101, 102, 103] : List Nat)[pos]?, S3 pos 1))) ∧
     List.Pairwise (fun x y : Option Nat × Nat => y.2 ≤ x.2)
       (rankedRow ([100, 101, 102, 103] : List Nat)
         (((List.range (1 * 4 / 2)).map (fun k => k * 2 + 1)).map
           (fun pos => S3 pos 1)) 2 1)) :=
  ⟨by decide, by decide, by decide, Or.inl (by decide), by decide,
   c3_regroup_display S3 [100, 101, 102, 103] 1 4 2 1 (by decide) (by decide)
     (by decide) (Or.inl (by decide)) (by decide)⟩

end DalleMini
